import Mathlib

/-!
Verification of the referencegame instance generator
(games/referencegame/instancegenerator.py).

Shallow-embedding conventions used throughout this file:

* Python strings are `List Char` (`Grid`).
* The external library call `Levenshtein.distance` is embedded by the textbook
  Levenshtein recurrence `lev` (single-character insertion, deletion and
  substitution), the reference semantics the spec names for it.
* The unbounded `while not found2` loop of `select_distractors` is embedded
  with explicit fuel (`selectLoop`): a `none` result for every fuel value
  models non-termination, a `some` result models the value returned by the
  loop.
* The regex strings produced by `_generate_regex` are interpolations of
  literal locale text into the fixed pattern shape
  `^tag\s*(?P<content>alt1|alt2|alt3)\n*(?P<remainder>.*)`; the matching
  semantics of that fixed shape under Python `re.match` is embedded directly
  by `p2_match_content` (greedy `\s*` with backtracking, leftmost alternative
  for the `content` group, and the trailing `\n*(?P<remainder>.*)` which
  accepts any remaining text).
-/

/-- Grids are opaque strings; only equality and edit distance are used. -/
abbrev Grid := List Char

/-- Python's `list.index(v)`: index of the first occurrence of `v`, `none`
when `v` is absent (the source only calls `.index` after an `in` test, which
is the `some` case). -/
def indexOf (v : Nat) : List Nat → Option Nat
  | [] => none
  | x :: xs => if x = v then some 0 else (indexOf v xs).map (fun k => k + 1)

/-- Helper for `lev`: given `f = lev as`, `levAux f a bs` computes
`lev (a :: as) bs` by structural recursion on `bs`. -/
def levAux (f : List Char → Nat) (a : Char) : List Char → Nat
  | [] => f [] + 1
  | b :: bs =>
    if a = b then f bs
    else 1 + min (f bs) (min (levAux f a bs) (f (b :: bs)))

/-- Standard Levenshtein edit distance (minimum number of single-character
insertions, deletions and substitutions), the reference semantics of the
external `Levenshtein.distance` call made by `get_distances`.  Written with
`levAux` so that both recursions are structural and the function evaluates
by kernel reduction. -/
def lev : List Char → List Char → Nat
  | [], bs => bs.length
  | a :: as, bs => levAux (lev as) a bs

/-- Embedding of `get_distances` (lines 37-52): the full pairwise
edit-distance matrix, with `0` on the diagonal and the Levenshtein distance
between `grids[i]` and `grids[j]` elsewhere. -/
def get_distances (grids : List Grid) : List (List Nat) :=
  (List.range grids.length).map (fun i =>
    (List.range grids.length).map (fun j =>
      if i = j then 0 else lev (grids.getD i []) (grids.getD j [])))

/-- Fuel-indexed embedding of the `while not found2` loop of
`select_distractors` (lines 62-89).  The loop state is the current
`min_distance` and the `found1`/`id1` pair, embedded as an `Option Nat`
(`none` before `found1`, `some id1` after).  One fuel unit is one iteration
of the Python loop; the loop has no exit other than `found2`, so a `none`
result for every fuel value models non-termination. -/
def selectLoop (dl : List Nat) : Nat → Nat → Option Nat → Option (Nat × Nat)
  | 0, _, _ => none
  | fuel + 1, d, st =>
    match indexOf d dl with
    | none => selectLoop dl fuel (d + 1) st
    | some idx =>
      match st with
      | none => selectLoop dl fuel d (some idx)
      | some id1 =>
        if idx ≠ id1 then some (id1, idx)
        else
          match indexOf d (dl.drop (id1 + 1)) with
          | some j => some (id1, id1 + 1 + j)
          | none => selectLoop dl fuel (d + 1) (some id1)

/-- Embedding of `select_distractors` (lines 55-89): run the search loop on
row `target_grid` of the distance matrix, starting at `min_distance = 1`
with neither distractor found. -/
def select_distractors (fuel : Nat) (target_grid : Nat) (distances : List (List Nat)) :
    Option (Nat × Nat) :=
  selectLoop (distances.getD target_grid []) fuel 1 none

/-- Invariant of the `select_distractors` loop at state `(d, st)` over the
target row `dl`: before `found1`, every positive entry is at least the
current threshold `d`; after `found1`, `id1` is the first index of the least
positive value of the row, its value is at most `d`, and every other
positive entry is at least `d`. -/
def SelInv (dl : List Nat) (d : Nat) : Option Nat → Prop
  | none => 1 ≤ d ∧ ∀ i, i < dl.length → 1 ≤ dl.getD i 0 → d ≤ dl.getD i 0
  | some id1 =>
      1 ≤ d ∧ id1 < dl.length ∧ 1 ≤ dl.getD id1 0 ∧ dl.getD id1 0 ≤ d ∧
      (∀ j, j < id1 → dl.getD j 0 ≠ dl.getD id1 0) ∧
      (∀ i, i < dl.length → 1 ≤ dl.getD i 0 → dl.getD id1 0 ≤ dl.getD i 0) ∧
      (∀ i, i < dl.length → i ≠ id1 → 1 ≤ dl.getD i 0 → d ≤ dl.getD i 0)

/-- What holds of the pair returned by the `select_distractors` loop:
both indices are in range, distinct, with positive values; the first is the
first index of the least positive value of the row; and every other index
with a positive value is at least the second value. -/
def SelPost (dl : List Nat) (a b : Nat) : Prop :=
  a < dl.length ∧ b < dl.length ∧ a ≠ b ∧
  1 ≤ dl.getD a 0 ∧ 1 ≤ dl.getD b 0 ∧ dl.getD a 0 ≤ dl.getD b 0 ∧
  (∀ j, j < a → dl.getD j 0 ≠ dl.getD a 0) ∧
  (∀ i, i < dl.length → 1 ≤ dl.getD i 0 → dl.getD a 0 ≤ dl.getD i 0) ∧
  (∀ i, i < dl.length → i ≠ a → i ≠ b → 1 ≤ dl.getD i 0 → dl.getD b 0 ≤ dl.getD i 0)

/-- The per-instance fields written by the slot-permutation loop of
`on_generate` (lines 123-162) that concern grid assignments and the
localized target name.  Prompt-header rendering (file templates, token
replacement) is external I/O and not modelled. -/
structure GameInstance where
  player_1_target_grid : Grid
  player_1_second_grid : Grid
  player_1_third_grid : Grid
  player_2_first_grid : Grid
  player_2_second_grid : Grid
  player_2_third_grid : Grid
  target_grid_name : Grid

/-- Embedding of one iteration of the slot-permutation loop in `on_generate`
(lines 123-162): the triplet `sample` is re-unpacked, the player-1 fields
are written from the unchanged triplet, then the player-2 slots are
reassigned according to the slot index `i`.  The source only runs
`i = 1, 2, 3`; for any other `i` the reassignment branches leave
`first_grid` and `target_grid_name` at their initialization value `""`
(here `[]`), exactly as in the source. -/
def make_positional_instance (sample : Grid × Grid × Grid) (targets : List Grid) (i : Nat) :
    GameInstance :=
  let target_grid := sample.1
  let second_grid := sample.2.1
  let third_grid := sample.2.2
  if i = 1 then
    ⟨target_grid, second_grid, third_grid,
     target_grid, second_grid, third_grid, targets.getD 0 []⟩
  else if i = 2 then
    ⟨target_grid, second_grid, third_grid,
     second_grid, target_grid, third_grid, targets.getD 1 []⟩
  else if i = 3 then
    ⟨target_grid, second_grid, third_grid,
     third_grid, second_grid, target_grid, targets.getD 2 []⟩
  else
    ⟨target_grid, second_grid, third_grid,
     [], second_grid, third_grid, []⟩

/-- Python's `str.split('|')`: split on every pipe character, keeping empty
pieces (so `"".split('|') = [""]` and `"||".split('|') = ["", "", ""]`). -/
def splitPipe : List Char → List (List Char)
  | [] => [[]]
  | c :: cs =>
    if c = '|' then [] :: splitPipe cs
    else
      match splitPipe cs with
      | [] => [[c]]
      | r :: rs => (c :: r) :: rs

/-- Embedding of lines 136-162 of `on_generate`: split the locale's
`p2_options` on `'|'`, assert that this yields exactly 3 tokens
(`assert len(targets) == 3`, a fatal `AssertionError` otherwise, embedded
as `Except.error ()`), then build the positional instance. -/
def build_instance (p2_options : List Char) (sample : Grid × Grid × Grid) (i : Nat) :
    Except Unit GameInstance :=
  let targets := splitPipe p2_options
  if targets.length = 3 then Except.ok (make_positional_instance sample targets i)
  else Except.error ()

/-- Python's `\s` character class: space, tab, newline, carriage return,
vertical tab, form feed. -/
def isSpaceChar (c : Char) : Bool :=
  c == ' ' || c == '\t' || c == '\n' || c == '\r' || c == '\x0b' || c == '\x0c'

/-- All suffixes of `u` reachable by consuming zero or more leading
whitespace characters, in the backtracking order of a greedy `\s*`
(longest consumed whitespace first). -/
def wsSplitsG : List Char → List (List Char)
  | [] => [[]]
  | c :: cs => if isSpaceChar c then wsSplitsG cs ++ [c :: cs] else [c :: cs]

/-- Matching a leading regex literal: `some rest` when `tag` is a literal
prefix of `s` (with `rest` what follows), `none` otherwise. -/
def dropLit (tag s : List Char) : Option (List Char) :=
  if tag.isPrefixOf s then some (s.drop tag.length) else none

/-- The `re.match` semantics of the player-2 pattern built by
`_generate_regex` (lines 192-195), `^tag\s*(?P<content>o1|o2|o3)\n*(?P<remainder>.*)`
with the locale texts interpolated as literals: the leading literal `tag`,
then zero or more whitespace characters (greedy, with backtracking), then
the `content` group, which must match one of the option literals
(alternatives tried left to right); the trailing `\n*(?P<remainder>.*)`
matches any remaining text, so it never rejects.  The result is the text
captured by the `content` group, `none` when the pattern does not match. -/
def p2_match_content (tag : List Char) (opts : List (List Char)) (resp : List Char) :
    Option (List Char) :=
  match dropLit tag resp with
  | none => none
  | some rest => (wsSplitsG rest).findSome? (fun r => opts.find? (fun o => o.isPrefixOf r))

/-- A first sanity theorem: the empty row makes the search loop spin. -/
theorem selectLoop_nil_none (fuel : Nat) : selectLoop [] fuel 1 none = none := by
  have h : ∀ f d : Nat, selectLoop [] f d none = none := by
    intro f
    induction f with
    | zero => intro d; rfl
    | succ f ih => intro d; simpa [selectLoop, indexOf] using ih (d + 1)
  exact h fuel 1

/-- If `v` does not occur (by `indexOf`), then no position holds `v`. -/
theorem indexOf_none (v : Nat) : ∀ l : List Nat, indexOf v l = none →
    ∀ i, i < l.length → l.getD i 0 ≠ v := by
  intro l
  induction l with
  | nil => intro _ i hi; simp at hi
  | cons x xs ih =>
    intro h i hi
    by_cases hx : x = v
    · simp [indexOf, hx] at h
    · have h' : indexOf v xs = none := by
        simpa [indexOf, hx, Option.map_eq_none'] using h
      cases i with
      | zero => simpa using hx
      | succ j =>
        have hj : j < xs.length := by simpa using hi
        simpa using ih h' j hj

/-- `indexOf` returns the first position of `v`: the index is in range, holds
`v`, and every earlier position differs from `v`. -/
theorem indexOf_some (v : Nat) : ∀ (l : List Nat) (i : Nat), indexOf v l = some i →
    i < l.length ∧ l.getD i 0 = v ∧ ∀ j, j < i → l.getD j 0 ≠ v := by
  intro l
  induction l with
  | nil => intro i h; simp [indexOf] at h
  | cons x xs ih =>
    intro i h
    by_cases hx : x = v
    · have h0 : i = 0 := by simpa [indexOf, hx] using h.symm
      subst h0
      exact ⟨by simp, by simpa using hx, by intro j hj; omega⟩
    · have h' : ∃ k, indexOf v xs = some k ∧ k + 1 = i := by
        simpa [indexOf, hx, Option.map_eq_some'] using h
      obtain ⟨k, hk, hki⟩ := h'
      obtain ⟨hk1, hk2, hk3⟩ := ih k hk
      subst hki
      refine ⟨by simpa using hk1, by simpa using hk2, ?_⟩
      intro j hj
      cases j with
      | zero => simpa using hx
      | succ j' => simpa using hk3 j' (by omega)

/-- When some position in range holds `v`, `indexOf` finds it. -/
theorem indexOf_isSome (v : Nat) : ∀ (l : List Nat) (i : Nat), i < l.length →
    l.getD i 0 = v → (indexOf v l).isSome = true := by
  intro l
  induction l with
  | nil => intro i hi; simp at hi
  | cons x xs ih =>
    intro i hi hv
    by_cases hx : x = v
    · simp [indexOf, hx]
    · cases i with
      | zero => simp at hv; exact absurd hv hx
      | succ j =>
        have hj : j < xs.length := by simpa using hi
        have := ih j hj (by simpa using hv)
        simp [indexOf, hx, Option.isSome_map']
        simpa [Option.isSome_iff_exists] using this

/-- Reading position `j` of `l.drop k` is reading position `k + j` of `l`
(both default to `0` out of range). -/
theorem getD_drop (l : List Nat) : ∀ (k j : Nat), (l.drop k).getD j 0 = l.getD (k + j) 0 := by
  induction l with
  | nil => intro k j; simp
  | cons x xs ih =>
    intro k j
    cases k with
    | zero => simp
    | succ k' =>
      have hsucc : k' + 1 + j = (k' + j) + 1 := by omega
      rw [hsucc]
      simp [ih k' j]

/-- Levenshtein distance to the empty string is the length. -/
theorem lev_nil_right : ∀ as : List Char, lev as [] = as.length := by
  intro as
  induction as with
  | nil => rfl
  | cons a as ih => simp [lev, levAux, ih]

/-- The textbook Levenshtein recurrence on two nonempty strings. -/
theorem lev_cons_cons (a : Char) (as : List Char) (b : Char) (bs : List Char) :
    lev (a :: as) (b :: bs) =
      if a = b then lev as bs
      else 1 + min (lev as bs) (min (lev (a :: as) bs) (lev as (b :: bs))) := rfl

/-- Levenshtein distance is symmetric (the operations invert: an insertion
one way is a deletion the other way, substitutions swap). -/
theorem lev_comm : ∀ as bs : List Char, lev as bs = lev bs as := by
  intro as
  induction as with
  | nil => intro bs; rw [lev_nil_right]; rfl
  | cons a as iha =>
    intro bs
    induction bs with
    | nil => rw [lev_nil_right]; rfl
    | cons b bs ihb =>
      rw [lev_cons_cons, lev_cons_cons]
      by_cases hab : a = b
      · subst hab
        rw [if_pos rfl, if_pos rfl]
        exact iha bs
      · have hba : ¬ b = a := fun h => hab h.symm
        rw [if_neg hab, if_neg hba, iha bs, iha (b :: bs), ihb]
        omega

/-- The distance matrix is square. -/
theorem get_distances_length (grids : List Grid) :
    (get_distances grids).length = grids.length := by
  simp [get_distances]

/-- Row `i` of the distance matrix, for `i` in range. -/
theorem get_distances_row (grids : List Grid) (i : Nat) (hi : i < grids.length) :
    (get_distances grids).getD i [] =
      (List.range grids.length).map
        (fun j => if i = j then 0 else lev (grids.getD i []) (grids.getD j [])) := by
  have hlen : i < (get_distances grids).length := by
    simpa [get_distances_length] using hi
  rw [List.getD_eq_getElem _ _ hlen]
  simp [get_distances]

/-- Each row of the distance matrix has the full width. -/
theorem get_distances_row_length (grids : List Grid) (i : Nat) (hi : i < grids.length) :
    ((get_distances grids).getD i []).length = grids.length := by
  rw [get_distances_row grids i hi]
  simp

/-- Entry `(i, j)` of the distance matrix, for `i`, `j` in range: `0` on the
diagonal, the edit distance of the two grids elsewhere. -/
theorem get_distances_entry (grids : List Grid) (i j : Nat)
    (hi : i < grids.length) (hj : j < grids.length) :
    ((get_distances grids).getD i []).getD j 0 =
      if i = j then 0 else lev (grids.getD i []) (grids.getD j []) := by
  rw [get_distances_row grids i hi]
  have hj' : j < ((List.range grids.length).map
      (fun j => if i = j then 0 else lev (grids.getD i []) (grids.getD j []))).length := by
    simpa using hj
  rw [List.getD_eq_getElem _ _ hj']
  simp

/-- Partial correctness of the `select_distractors` loop: any pair it returns
from an invariant-respecting state satisfies the postcondition. -/
theorem selectLoop_post (dl : List Nat) :
    ∀ (fuel d : Nat) (st : Option Nat) (a b : Nat),
      SelInv dl d st → selectLoop dl fuel d st = some (a, b) → SelPost dl a b := by
  intro fuel
  induction fuel with
  | zero =>
    intro d st a b _ hrun
    simp [selectLoop] at hrun
  | succ fuel ih =>
    intro d st a b hInv hrun
    cases st with
    | none =>
      simp only [SelInv] at hInv
      obtain ⟨hd1, hall⟩ := hInv
      simp only [selectLoop] at hrun
      cases hidx : indexOf d dl with
      | none =>
        simp only [hidx] at hrun
        refine ih (d + 1) none a b ⟨by omega, ?_⟩ hrun
        intro i hi hpos
        have hne := indexOf_none d dl hidx i hi
        have := hall i hi hpos
        omega
      | some idx =>
        simp only [hidx] at hrun
        obtain ⟨hidxlt, hidxval, hidxfirst⟩ := indexOf_some d dl idx hidx
        refine ih d (some idx) a b ?_ hrun
        simp only [SelInv]
        refine ⟨hd1, hidxlt, by omega, by omega, ?_, ?_, ?_⟩
        · intro j hj
          rw [hidxval]
          exact hidxfirst j hj
        · intro i hi hpos
          rw [hidxval]
          exact hall i hi hpos
        · intro i hi _ hpos
          exact hall i hi hpos
    | some id1 =>
      simp only [SelInv] at hInv
      obtain ⟨hd1, hlt, hpos1, hle1, hfirst, hmin, hothers⟩ := hInv
      simp only [selectLoop] at hrun
      cases hidx : indexOf d dl with
      | none =>
        simp only [hidx] at hrun
        refine ih (d + 1) (some id1) a b ?_ hrun
        simp only [SelInv]
        refine ⟨by omega, hlt, hpos1, by omega, hfirst, hmin, ?_⟩
        intro i hi hine hpos
        have hne := indexOf_none d dl hidx i hi
        have := hothers i hi hine hpos
        omega
      | some idx =>
        simp only [hidx] at hrun
        obtain ⟨hidxlt, hidxval, hidxfirst⟩ := indexOf_some d dl idx hidx
        by_cases heq : idx = id1
        · subst heq
          rw [if_neg (fun hcon => hcon rfl)] at hrun
          cases htail : indexOf d (dl.drop (idx + 1)) with
          | some j =>
            simp only [htail] at hrun
            obtain ⟨ha, hb⟩ : idx = a ∧ idx + 1 + j = b := by simpa using hrun
            subst ha
            subst hb
            obtain ⟨hjlt, hjval, _⟩ := indexOf_some d _ j htail
            rw [getD_drop] at hjval
            have hjlt' : j < dl.length - (idx + 1) := by
              simpa [List.length_drop] using hjlt
            simp only [SelPost]
            refine ⟨hlt, by omega, by omega, hpos1, by omega, by omega, hfirst, hmin, ?_⟩
            intro i hi hia _ hpos
            have := hothers i hi hia hpos
            omega
          | none =>
            simp only [htail] at hrun
            refine ih (d + 1) (some idx) a b ?_ hrun
            simp only [SelInv]
            refine ⟨by omega, hlt, hpos1, by omega, hfirst, hmin, ?_⟩
            intro i hi hine hpos
            have hge := hothers i hi hine hpos
            rcases Nat.lt_or_ge i idx with hcase | hcase
            · have := hidxfirst i hcase
              omega
            · by_contra hcon
              have hieq : dl.getD i 0 = d := by omega
              have hsome : (indexOf d (dl.drop (idx + 1))).isSome = true := by
                apply indexOf_isSome d _ (i - (idx + 1))
                · simp only [List.length_drop]
                  omega
                · rw [getD_drop]
                  have harith : idx + 1 + (i - (idx + 1)) = i := by omega
                  rw [harith]
                  exact hieq
              rw [htail] at hsome
              simp at hsome
        · rw [if_pos heq] at hrun
          obtain ⟨ha, hb⟩ : id1 = a ∧ idx = b := by simpa using hrun
          subst ha
          subst hb
          simp only [SelPost]
          refine ⟨hlt, hidxlt, fun hcon => heq hcon.symm, hpos1, by omega, by omega, hfirst,
            hmin, ?_⟩
          intro i hi hia _ hpos
          have := hothers i hi hia hpos
          omega

/-- Termination of the search loop after `found1`: if some index other than
`id1` holds a value `v` at least the current threshold, the loop returns
within some fuel. -/
theorem selectLoop_phase2_term (dl : List Nat) (id1 k v : Nat)
    (hk : k < dl.length) (hkne : k ≠ id1) (hkv : dl.getD k 0 = v) :
    ∀ n d : Nat, d + n = v → 1 ≤ d →
      ∃ fuel, (selectLoop dl fuel d (some id1)).isSome = true := by
  intro n
  induction n with
  | zero =>
    intro d hdn hd1
    have hdv : d = v := by omega
    subst hdv
    have hsome : (indexOf d dl).isSome = true := indexOf_isSome d dl k hk hkv
    obtain ⟨idx, hidx⟩ := Option.isSome_iff_exists.mp hsome
    obtain ⟨hidxlt, hidxval, hidxfirst⟩ := indexOf_some d dl idx hidx
    by_cases heq : idx = id1
    · subst heq
      have hkgt : idx < k := by
        rcases Nat.lt_or_ge k idx with hc | hc
        · exact absurd hkv (hidxfirst k hc)
        · omega
      have htsome : (indexOf d (dl.drop (idx + 1))).isSome = true := by
        apply indexOf_isSome d _ (k - (idx + 1))
        · simp only [List.length_drop]
          omega
        · rw [getD_drop]
          have harith : idx + 1 + (k - (idx + 1)) = k := by omega
          rw [harith]
          exact hkv
      obtain ⟨j, hj⟩ := Option.isSome_iff_exists.mp htsome
      refine ⟨1, ?_⟩
      simp [selectLoop, hidx, hj]
    · refine ⟨1, ?_⟩
      simp [selectLoop, hidx, heq]
  | succ n ih =>
    intro d hdn hd1
    cases hidx : indexOf d dl with
    | none =>
      obtain ⟨fuel, hfuel⟩ := ih (d + 1) (by omega) (by omega)
      refine ⟨fuel + 1, ?_⟩
      simpa [selectLoop, hidx] using hfuel
    | some idx =>
      by_cases heq : idx = id1
      · subst heq
        cases htail : indexOf d (dl.drop (idx + 1)) with
        | some j =>
          refine ⟨1, ?_⟩
          simp [selectLoop, hidx, htail]
        | none =>
          obtain ⟨fuel, hfuel⟩ := ih (d + 1) (by omega) (by omega)
          refine ⟨fuel + 1, ?_⟩
          simpa [selectLoop, hidx, htail] using hfuel
      · refine ⟨1, ?_⟩
        simp [selectLoop, hidx, heq]

/-- Termination of the full search: a row with two distinct positions whose
values are both at least the current threshold makes the loop return within
some fuel, from any pre-`found1` threshold `d ≥ 1`. -/
theorem selectLoop_phase1_term (dl : List Nat) (i j : Nat)
    (hi : i < dl.length) (hj : j < dl.length) (hij : i ≠ j) :
    ∀ n d : Nat, d + n = dl.getD i 0 → 1 ≤ d → d ≤ dl.getD i 0 → d ≤ dl.getD j 0 →
      ∃ fuel, (selectLoop dl fuel d none).isSome = true := by
  intro n
  induction n with
  | zero =>
    intro d hdn hd1 hdi hdj
    have hsome : (indexOf d dl).isSome = true := indexOf_isSome d dl i hi (by omega)
    obtain ⟨idx, hidx⟩ := Option.isSome_iff_exists.mp hsome
    by_cases heqi : idx = i
    · obtain ⟨fuel, hfuel⟩ := selectLoop_phase2_term dl idx j (dl.getD j 0) hj
        (fun hc => hij (heqi ▸ hc).symm) rfl (dl.getD j 0 - d) d (by omega) hd1
      refine ⟨fuel + 1, ?_⟩
      simpa [selectLoop, hidx] using hfuel
    · obtain ⟨fuel, hfuel⟩ := selectLoop_phase2_term dl idx i (dl.getD i 0) hi
        (fun hc => heqi hc.symm) rfl (dl.getD i 0 - d) d (by omega) hd1
      refine ⟨fuel + 1, ?_⟩
      simpa [selectLoop, hidx] using hfuel
  | succ n ih =>
    intro d hdn hd1 hdi hdj
    cases hidx : indexOf d dl with
    | none =>
      have hnei := indexOf_none d dl hidx i hi
      have hnej := indexOf_none d dl hidx j hj
      obtain ⟨fuel, hfuel⟩ := ih (d + 1) (by omega) (by omega) (by omega) (by omega)
      refine ⟨fuel + 1, ?_⟩
      simpa [selectLoop, hidx] using hfuel
    | some idx =>
      by_cases heqi : idx = i
      · obtain ⟨fuel, hfuel⟩ := selectLoop_phase2_term dl idx j (dl.getD j 0) hj
          (fun hc => hij (heqi ▸ hc).symm) rfl (dl.getD j 0 - d) d (by omega) hd1
        refine ⟨fuel + 1, ?_⟩
        simpa [selectLoop, hidx] using hfuel
      · obtain ⟨fuel, hfuel⟩ := selectLoop_phase2_term dl idx i (dl.getD i 0) hi
          (fun hc => heqi hc.symm) rfl (dl.getD i 0 - d) d (by omega) hd1
        refine ⟨fuel + 1, ?_⟩
        simpa [selectLoop, hidx] using hfuel

/-- A row whose positive-entry count is zero has only zero entries. -/
theorem countP_pos_zero (l : List Nat)
    (h : l.countP (fun x => decide (1 ≤ x)) = 0) : ∀ i, i < l.length → l.getD i 0 = 0 := by
  intro i hi
  have hmem : l.getD i 0 ∈ l := by
    rw [List.getD_eq_getElem l 0 hi]
    exact List.getElem_mem hi
  have hnp := List.countP_eq_zero.mp h _ hmem
  simpa using hnp

/-- A row with at most one positive entry has at most one positive position:
two in-range positions with positive values coincide. -/
theorem pos_index_unique : ∀ (l : List Nat) (i j : Nat),
    l.countP (fun x => decide (1 ≤ x)) ≤ 1 → i < l.length → j < l.length →
    1 ≤ l.getD i 0 → 1 ≤ l.getD j 0 → i = j := by
  intro l
  induction l with
  | nil => intro i j _ hi; simp at hi
  | cons x xs ih =>
    intro i j hcount hi hj hpi hpj
    rw [List.countP_cons] at hcount
    cases i with
    | zero =>
      cases j with
      | zero => rfl
      | succ j' =>
        rw [List.getD_cons_zero] at hpi
        rw [List.getD_cons_succ] at hpj
        have hx : (if decide (1 ≤ x) = true then 1 else 0) = 1 := by
          simp [hpi]
        have hxs : xs.countP (fun x => decide (1 ≤ x)) = 0 := by omega
        have hj' : j' < xs.length := by simpa using hj
        have hzero := countP_pos_zero xs hxs j' hj'
        omega
    | succ i' =>
      cases j with
      | zero =>
        rw [List.getD_cons_zero] at hpj
        rw [List.getD_cons_succ] at hpi
        have hx : (if decide (1 ≤ x) = true then 1 else 0) = 1 := by
          simp [hpj]
        have hxs : xs.countP (fun x => decide (1 ≤ x)) = 0 := by omega
        have hi' : i' < xs.length := by simpa using hi
        have hzero := countP_pos_zero xs hxs i' hi'
        omega
      | succ j' =>
        rw [List.getD_cons_succ] at hpi
        rw [List.getD_cons_succ] at hpj
        have hxs : xs.countP (fun x => decide (1 ≤ x)) ≤ 1 := by omega
        have hi' : i' < xs.length := by simpa using hi
        have hj' : j' < xs.length := by simpa using hj
        have := ih i' j' hxs hi' hj' hpi hpj
        omega

/-- Non-termination of the search loop on a row with at most one positive
entry: from any state whose threshold is at least 1 and whose `id1` (if
found) is an in-range positive position, the loop never returns, whatever
the fuel. -/
theorem selectLoop_nonterm (dl : List Nat)
    (hcount : dl.countP (fun x => decide (1 ≤ x)) ≤ 1) :
    ∀ (fuel d : Nat) (st : Option Nat), 1 ≤ d →
      (∀ id1, st = some id1 → id1 < dl.length ∧ 1 ≤ dl.getD id1 0) →
      selectLoop dl fuel d st = none := by
  intro fuel
  induction fuel with
  | zero => intro d st _ _; rfl
  | succ fuel ih =>
    intro d st hd1 hst
    cases st with
    | none =>
      cases hidx : indexOf d dl with
      | none =>
        simp only [selectLoop, hidx]
        exact ih (d + 1) none (by omega) (by simp)
      | some idx =>
        obtain ⟨hidxlt, hidxval, _⟩ := indexOf_some d dl idx hidx
        simp only [selectLoop, hidx]
        refine ih d (some idx) hd1 ?_
        intro id1 heq
        cases heq
        exact ⟨hidxlt, by omega⟩
    | some id1 =>
      obtain ⟨hlt, hpos⟩ := hst id1 rfl
      cases hidx : indexOf d dl with
      | none =>
        simp only [selectLoop, hidx]
        exact ih (d + 1) (some id1) (by omega) (fun x heq => by cases heq; exact ⟨hlt, hpos⟩)
      | some idx =>
        obtain ⟨hidxlt, hidxval, _⟩ := indexOf_some d dl idx hidx
        have heq : idx = id1 :=
          pos_index_unique dl idx id1 hcount hidxlt hlt (by omega) hpos
        subst heq
        simp only [selectLoop, hidx]
        rw [if_neg (fun hcon => hcon rfl)]
        cases htail : indexOf d (dl.drop (idx + 1)) with
        | some j =>
          obtain ⟨hjlt, hjval, _⟩ := indexOf_some d _ j htail
          rw [getD_drop] at hjval
          have hjlt' : j < dl.length - (idx + 1) := by
            simpa [List.length_drop] using hjlt
          have heq2 : idx + 1 + j = idx :=
            pos_index_unique dl (idx + 1 + j) idx hcount (by omega) hidxlt
              (by omega) (by omega)
          omega
        | none =>
          simp only [htail]
          exact ih (d + 1) (some idx) (by omega)
            (fun x heq => by cases heq; exact ⟨hidxlt, by omega⟩)

/-- A row of length at most 2 with a zero entry has at most one positive
entry. -/
theorem countP_pos_le_one_of_small (l : List Nat) (t : Nat)
    (hlen : l.length ≤ 2) (ht : t < l.length) (h0 : l.getD t 0 = 0) :
    l.countP (fun x => decide (1 ≤ x)) ≤ 1 := by
  rcases l with _ | ⟨x, l1⟩
  · simp
  · rcases l1 with _ | ⟨y, l2⟩
    · exact le_trans (List.countP_le_length _) (by simp)
    · rcases l2 with _ | ⟨z, l3⟩
      · rcases t with _ | t1
        · rw [List.getD_cons_zero] at h0
          subst h0
          rw [List.countP_cons, List.countP_cons, List.countP_nil]
          by_cases hy : (1 : Nat) ≤ y <;> simp [hy]
        · rcases t1 with _ | t2
          · rw [List.getD_cons_succ, List.getD_cons_zero] at h0
            subst h0
            rw [List.countP_cons, List.countP_cons, List.countP_nil]
            by_cases hx : (1 : Nat) ≤ x <;> simp [hx]
          · simp at ht
            omega
      · simp at hlen

/-- Distance-matrix rows of a group with fewer than 3 grids have at most one
positive entry (the diagonal entry is 0 and there is at most one other). -/
theorem small_group_row_count (grids : List Grid) (hlen : grids.length < 3) (t : Nat) :
    ((get_distances grids).getD t []).countP (fun x => decide (1 ≤ x)) ≤ 1 := by
  rcases Nat.lt_or_ge t grids.length with ht | ht
  · have hrl := get_distances_row_length grids t ht
    have hdiag : ((get_distances grids).getD t []).getD t 0 = 0 := by
      rw [get_distances_entry grids t t ht ht]
      simp
    exact countP_pos_le_one_of_small _ t (by omega) (by omega) hdiag
  · have hempty : (get_distances grids).getD t [] = [] := by
      apply List.getD_eq_default
      rw [get_distances_length]
      omega
    rw [hempty]
    simp

/-- A list is a prefix (by `isPrefixOf`) of itself followed by anything. -/
theorem isPrefixOf_append_self (l1 l2 : List Char) : l1.isPrefixOf (l1 ++ l2) = true := by
  rw [List.isPrefixOf_iff_prefix]
  exact List.prefix_append l1 l2

/-- Reflexivity of `isPrefixOf`. -/
theorem isPrefixOf_self (l : List Char) : l.isPrefixOf l = true := by
  rw [List.isPrefixOf_iff_prefix]

/-- The leading literal of the pattern consumes exactly itself. -/
theorem dropLit_append (tag u : List Char) : dropLit tag (tag ++ u) = some u := by
  rw [dropLit, if_pos (isPrefixOf_append_self tag u), List.drop_left]

/-- The zero-whitespace split (the whole string) is among the `\s*`
backtracking candidates. -/
theorem wsSplitsG_self_mem : ∀ u : List Char, u ∈ wsSplitsG u := by
  intro u
  cases u with
  | nil => simp [wsSplitsG]
  | cons c cs =>
    by_cases hc : isSpaceChar c = true
    · simp [wsSplitsG, hc]
    · simp [wsSplitsG, hc]

/-- If some member of `l` makes `f` succeed, `findSome?` succeeds. -/
theorem findSome?_isSome_of_mem (f : List Char → Option (List Char)) :
    ∀ (l : List (List Char)) (r : List Char), r ∈ l → (f r).isSome = true →
      (l.findSome? f).isSome = true := by
  intro l
  induction l with
  | nil => intro r hr; simp at hr
  | cons x xs ih =>
    intro r hr hf
    cases hx : f x with
    | some v => simp [List.findSome?_cons, hx]
    | none =>
      simp only [List.findSome?_cons, hx]
      rcases List.mem_cons.mp hr with heq | hmem
      · subst heq
        rw [hx] at hf
        simp at hf
      · exact ih r hmem hf

/-- A successful `findSome?` comes from some member of the list. -/
theorem findSome?_eq_some_ex (f : List Char → Option (List Char)) :
    ∀ (l : List (List Char)) (x : List Char), l.findSome? f = some x →
      ∃ r, r ∈ l ∧ f r = some x := by
  intro l
  induction l with
  | nil => intro x h; simp at h
  | cons y ys ih =>
    intro x h
    cases hy : f y with
    | some v =>
      simp only [List.findSome?_cons, hy] at h
      exact ⟨y, by simp, by rw [hy, h]⟩
    | none =>
      simp only [List.findSome?_cons, hy] at h
      obtain ⟨r, hr, hfr⟩ := ih x h
      exact ⟨r, by simp [hr], hfr⟩

/-- If `f` fails on every member, `findSome?` fails. -/
theorem findSome?_eq_none_of_all (f : List Char → Option (List Char)) :
    ∀ l : List (List Char), (∀ r, r ∈ l → f r = none) → l.findSome? f = none := by
  intro l
  induction l with
  | nil => intro _; simp
  | cons x xs ih =>
    intro h
    have hx : f x = none := h x (by simp)
    simp only [List.findSome?_cons, hx]
    exact ih (fun r hr => h r (by simp [hr]))

/-- Bridge: any pair returned by `select_distractors` satisfies the loop
postcondition over the target row (the initial state trivially satisfies the
invariant at threshold 1). -/
theorem select_distractors_post (fuel t a b : Nat) (m : List (List Nat))
    (h : select_distractors fuel t m = some (a, b)) : SelPost (m.getD t []) a b := by
  apply selectLoop_post (m.getD t []) fuel 1 none a b ?_ h
  simp only [SelInv]
  exact ⟨le_refl 1, fun i _ hp => hp⟩

/-- C1 counterexample: on the distance matrix of the grid group
`["00", "00", "01", "11"]` (a genuine `get_distances` output: diagonal 0,
symmetric), target 0, `select_distractors` returns `(2, 3)`, yet index 1 —
outside `{t, id1, id2}` — has distance 0, strictly below
`matrix[0][3] = 2`.  The claimed minimality (no outside index below
`matrix[t][id2]`) therefore fails: duplicate grids sit at distance 0, which
the threshold scan (starting at 1) never sees. -/
theorem C1_counterexample :
    select_distractors 5 0 (get_distances [['0','0'], ['0','0'], ['0','1'], ['1','1']]) =
      some (2, 3) ∧
    ((get_distances [['0','0'], ['0','0'], ['0','1'], ['1','1']]).getD 0 []).getD 1 0 <
      ((get_distances [['0','0'], ['0','0'], ['0','1'], ['1','1']]).getD 0 []).getD 3 0 ∧
    ((1 : Nat) ≠ 0 ∧ (1 : Nat) ≠ 2 ∧ (1 : Nat) ≠ 3) := by
  decide

/-- C1 (amended): whenever `select_distractors` returns `(id1, id2)` on row
`t` of a matrix, then `matrix[t][id1] ≤ matrix[t][id2]`, `id1` is the lowest
index attaining the smallest distance value ≥ 1 occurring in the row, and no
index `k` outside `{id1, id2}` with `matrix[t][k] ≥ 1` has
`matrix[t][k] < matrix[t][id2]`.  (The restriction to positive distances is
what the counterexample forces: indices at distance 0 are invisible to the
scan.) -/
theorem C1_minimality_amended (fuel t id1 id2 : Nat) (m : List (List Nat))
    (h : select_distractors fuel t m = some (id1, id2)) :
    (m.getD t []).getD id1 0 ≤ (m.getD t []).getD id2 0 ∧
    (1 ≤ (m.getD t []).getD id1 0 ∧
      (∀ j, j < id1 → (m.getD t []).getD j 0 ≠ (m.getD t []).getD id1 0) ∧
      (∀ i, i < (m.getD t []).length → 1 ≤ (m.getD t []).getD i 0 →
        (m.getD t []).getD id1 0 ≤ (m.getD t []).getD i 0)) ∧
    (∀ k, k < (m.getD t []).length → k ≠ id1 → k ≠ id2 → 1 ≤ (m.getD t []).getD k 0 →
      (m.getD t []).getD id2 0 ≤ (m.getD t []).getD k 0) := by
  have hp := select_distractors_post fuel t id1 id2 m h
  simp only [SelPost] at hp
  obtain ⟨h1, h2, h3, h4, h5, h6, h7, h8, h9⟩ := hp
  exact ⟨h6, ⟨h4, h7, h8⟩, h9⟩

/-- C1 witness: the amended theorem applied to the concrete scenario of the
spec (grids `["00", "01", "11"]`, target 0, result `(1, 2)`). -/
theorem C1_witness :
    select_distractors 10 0 (get_distances [['0','0'], ['0','1'], ['1','1']]) = some (1, 2) ∧
    ((get_distances [['0','0'], ['0','1'], ['1','1']]).getD 0 []).getD 1 0 ≤
      ((get_distances [['0','0'], ['0','1'], ['1','1']]).getD 0 []).getD 2 0 :=
  ⟨by decide, (C1_minimality_amended 10 0 1 2 _ (by decide)).1⟩

/-- C2: the slot-permutation assigns player 2's grids exactly as the spec
states: `i = 1` gives (target, second, third) with position token 0;
`i = 2` gives (second, target, third) with token 1; `i = 3` gives
(third, second, target) with token 2. -/
theorem C2_slot_assignment (sample : Grid × Grid × Grid) (targets : List Grid) :
    ((make_positional_instance sample targets 1).player_2_first_grid = sample.1 ∧
     (make_positional_instance sample targets 1).player_2_second_grid = sample.2.1 ∧
     (make_positional_instance sample targets 1).player_2_third_grid = sample.2.2 ∧
     (make_positional_instance sample targets 1).target_grid_name = targets.getD 0 []) ∧
    ((make_positional_instance sample targets 2).player_2_first_grid = sample.2.1 ∧
     (make_positional_instance sample targets 2).player_2_second_grid = sample.1 ∧
     (make_positional_instance sample targets 2).player_2_third_grid = sample.2.2 ∧
     (make_positional_instance sample targets 2).target_grid_name = targets.getD 1 []) ∧
    ((make_positional_instance sample targets 3).player_2_first_grid = sample.2.2 ∧
     (make_positional_instance sample targets 3).player_2_second_grid = sample.2.1 ∧
     (make_positional_instance sample targets 3).player_2_third_grid = sample.1 ∧
     (make_positional_instance sample targets 3).target_grid_name = targets.getD 2 []) :=
  ⟨⟨rfl, rfl, rfl, rfl⟩, ⟨rfl, rfl, rfl, rfl⟩, ⟨rfl, rfl, rfl, rfl⟩⟩

/-- C3: on any distance matrix (whose defining diagonal invariant gives the
target entry value 0), a returned pair has both indices different from the
target and from each other. -/
theorem C3_distinctness (fuel t id1 id2 : Nat) (m : List (List Nat))
    (hdiag : (m.getD t []).getD t 0 = 0)
    (h : select_distractors fuel t m = some (id1, id2)) :
    id1 ≠ t ∧ id2 ≠ t ∧ id1 ≠ id2 := by
  have hp := select_distractors_post fuel t id1 id2 m h
  simp only [SelPost] at hp
  obtain ⟨_, _, hne, hp1, hp2, _⟩ := hp
  refine ⟨?_, ?_, hne⟩
  · intro hcon
    rw [hcon, hdiag] at hp1
    omega
  · intro hcon
    rw [hcon, hdiag] at hp2
    omega

/-- C3 witness: distinctness at the concrete scenario. -/
theorem C3_witness :
    ((get_distances [['0','0'], ['0','1'], ['1','1']]).getD 0 []).getD 0 0 = 0 ∧
    select_distractors 10 0 (get_distances [['0','0'], ['0','1'], ['1','1']]) = some (1, 2) ∧
    ((1 : Nat) ≠ 0 ∧ (2 : Nat) ≠ 0 ∧ (1 : Nat) ≠ 2) :=
  ⟨by decide, by decide,
   C3_distinctness 10 0 1 2 (get_distances [['0','0'], ['0','1'], ['1','1']])
     (by decide) (by decide)⟩

/-- C4: termination behaviour of `select_distractors`.  (1) A target row
with two distinct positions of positive distance makes the search return
within some fuel.  (2) A row with at most one positive entry ("no second
qualifying index") makes the loop spin: `none` for every fuel.  (3) In
particular a grid group with fewer than 3 grids makes every target's search
spin. -/
theorem C4_termination (m : List (List Nat)) (t : Nat) (grids : List Grid) :
    ((∃ i j, i < (m.getD t []).length ∧ j < (m.getD t []).length ∧ i ≠ j ∧
        1 ≤ (m.getD t []).getD i 0 ∧ 1 ≤ (m.getD t []).getD j 0) →
      ∃ fuel, (select_distractors fuel t m).isSome = true) ∧
    ((m.getD t []).countP (fun x => decide (1 ≤ x)) ≤ 1 →
      ∀ fuel, select_distractors fuel t m = none) ∧
    (grids.length < 3 → ∀ fuel, select_distractors fuel t (get_distances grids) = none) := by
  refine ⟨?_, ?_, ?_⟩
  · rintro ⟨i, j, hi, hj, hij, hpi, hpj⟩
    exact selectLoop_phase1_term (m.getD t []) i j hi hj hij
      ((m.getD t []).getD i 0 - 1) 1 (by omega) (by omega) hpi hpj
  · intro hcount fuel
    exact selectLoop_nonterm (m.getD t []) hcount fuel 1 none (le_refl 1) (by simp)
  · intro hlen fuel
    exact selectLoop_nonterm ((get_distances grids).getD t [])
      (small_group_row_count grids hlen t) fuel 1 none (le_refl 1) (by simp)

/-- C4 witness: the three parts applied at concrete inputs — a row with two
positive entries terminates; a row with one positive entry spins; a
1-element grid group spins. -/
theorem C4_witness :
    (∃ fuel, (select_distractors fuel 0 [[0, 1, 2]]).isSome = true) ∧
    (∀ fuel, select_distractors fuel 0 [[0, 1, 0]] = none) ∧
    (∀ fuel, select_distractors fuel 0 (get_distances [['0','0']]) = none) :=
  ⟨(C4_termination [[0, 1, 2]] 0 []).1
      ⟨1, 2, by decide, by decide, by decide, by decide, by decide⟩,
   (C4_termination [[0, 1, 0]] 0 []).2.1 (by decide),
   (C4_termination [[0, 1, 0]] 0 [['0','0']]).2.2 (by decide)⟩

/-- C5 counterexample: `p2_options = "a||b"` splits into exactly 3 tokens,
one of which is empty — not "3 non-empty tokens" — yet the assertion
(`len == 3`) passes and generation proceeds to a built instance instead of
failing fatally as the claim states. -/
theorem C5_counterexample :
    splitPipe ['a', '|', '|', 'b'] = [['a'], [], ['b']] ∧
    build_instance ['a', '|', '|', 'b'] ([], [], []) 1 =
      Except.ok (make_positional_instance ([], [], []) [['a'], [], ['b']] 1) :=
  ⟨rfl, rfl⟩

/-- C5 (amended): the assertion checks only the token count — generation
fails fatally iff `p2_options` does not split on `'|'` into exactly 3
tokens (empty tokens are not rejected); with exactly 3 tokens generation
proceeds past the check. -/
theorem C5_token_count_check (p2opts : List Char) (sample : Grid × Grid × Grid) (i : Nat) :
    ((splitPipe p2opts).length = 3 →
      build_instance p2opts sample i =
        Except.ok (make_positional_instance sample (splitPipe p2opts) i)) ∧
    ((splitPipe p2opts).length ≠ 3 →
      build_instance p2opts sample i = Except.error ()) := by
  constructor
  · intro h
    simp [build_instance, h]
  · intro h
    simp [build_instance, h]

/-- C5 witness: a well-formed `"a|b|c"` proceeds, a two-token `"a|b"`
fails the assertion. -/
theorem C5_witness :
    (splitPipe ['a', '|', 'b', '|', 'c']).length = 3 ∧
    build_instance ['a', '|', 'b', '|', 'c'] ([], [], []) 1 =
      Except.ok (make_positional_instance ([], [], []) (splitPipe ['a', '|', 'b', '|', 'c']) 1) ∧
    (splitPipe ['a', '|', 'b']).length ≠ 3 ∧
    build_instance ['a', '|', 'b'] ([], [], []) 1 = Except.error () :=
  ⟨by decide, (C5_token_count_check ['a', '|', 'b', '|', 'c'] ([], [], []) 1).1 (by decide),
   by decide, (C5_token_count_check ['a', '|', 'b'] ([], [], []) 1).2 (by decide)⟩

/-- C6: the matrix built by `get_distances` has zeros on the diagonal, and
off the diagonal both `matrix[i][j]` and `matrix[j][i]` equal the standard
Levenshtein edit distance of `grids[i]` and `grids[j]` (symmetry via
`lev_comm`). -/
theorem C6_matrix_contract (grids : List Grid) (i j : Nat)
    (hi : i < grids.length) (hj : j < grids.length) :
    ((get_distances grids).getD i []).getD i 0 = 0 ∧
    (i ≠ j →
      ((get_distances grids).getD i []).getD j 0 = lev (grids.getD i []) (grids.getD j []) ∧
      ((get_distances grids).getD j []).getD i 0 = lev (grids.getD i []) (grids.getD j [])) := by
  constructor
  · rw [get_distances_entry grids i i hi hi]
    simp
  · intro hij
    constructor
    · rw [get_distances_entry grids i j hi hj, if_neg hij]
    · rw [get_distances_entry grids j i hj hi, if_neg (fun hc => hij hc.symm)]
      exact lev_comm _ _

/-- C6 witness: the matrix contract applied at a concrete 2-grid group. -/
theorem C6_witness :
    (0 : Nat) < 2 ∧ (1 : Nat) < 2 ∧
    ((get_distances [['0','0'], ['0','1']]).getD 0 []).getD 0 0 = 0 :=
  ⟨by decide, by decide,
   (C6_matrix_contract [['0','0'], ['0','1']] 0 1 (by decide) (by decide)).1⟩

/-- C7: the concrete scenario of the spec: grids `["00", "01", "11"]` give
the distance matrix `[[0,1,2],[1,0,1],[2,1,0]]` (so row 0 is `[0,1,2]`),
and the selector returns exactly `(1, 2)` for target 0. -/
theorem C7_concrete_scenario :
    get_distances [['0','0'], ['0','1'], ['1','1']] = [[0, 1, 2], [1, 0, 1], [2, 1, 0]] ∧
    select_distractors 10 0 (get_distances [['0','0'], ['0','1'], ['1','1']]) = some (1, 2) := by
  decide

/-- C8: the player-2 response pattern accepts the tag followed by any of the
locale's 3 position-name tokens, capturing one of the tokens as `content`,
and rejects a response whose content is unrelated to all three tokens (no
token is a prefix of it, under any leading-whitespace split). -/
theorem C8_p2_pattern (tag : List Char) (opts : List (List Char)) (_hlen : opts.length = 3) :
    (∀ o, o ∈ opts → ∃ o2, o2 ∈ opts ∧ p2_match_content tag opts (tag ++ o) = some o2) ∧
    (∀ u, (∀ r, r ∈ wsSplitsG u → ∀ o, o ∈ opts → o.isPrefixOf r = false) →
      p2_match_content tag opts (tag ++ u) = none) := by
  constructor
  · intro o ho
    simp only [p2_match_content, dropLit_append]
    have hsome : ((wsSplitsG o).findSome?
        (fun r => opts.find? (fun o2 => o2.isPrefixOf r))).isSome = true := by
      apply findSome?_isSome_of_mem _ _ o (wsSplitsG_self_mem o)
      cases hfind : opts.find? (fun o2 => o2.isPrefixOf o) with
      | none =>
        have hno := List.find?_eq_none.mp hfind o ho
        simp [isPrefixOf_self] at hno
      | some v => simp
    obtain ⟨o2, ho2⟩ := Option.isSome_iff_exists.mp hsome
    refine ⟨o2, ?_, ho2⟩
    obtain ⟨r, _, hfr⟩ := findSome?_eq_some_ex _ _ o2 ho2
    exact List.mem_of_find?_eq_some hfr
  · intro u hu
    simp only [p2_match_content, dropLit_append]
    apply findSome?_eq_none_of_all
    intro r hr
    apply List.find?_eq_none.mpr
    intro o ho
    simp [hu r hr o ho]

/-- C8 witness: with tag `"A:"` and options `first|second|third`, the
pattern accepts `"A:first"` (capturing an option) and rejects `"A:zzz"`. -/
theorem C8_witness :
    (∃ o2, o2 ∈ [['f','i','r','s','t'], ['s','e','c','o','n','d'], ['t','h','i','r','d']] ∧
        p2_match_content ['A', ':']
          [['f','i','r','s','t'], ['s','e','c','o','n','d'], ['t','h','i','r','d']]
          (['A', ':'] ++ ['f','i','r','s','t']) = some o2) ∧
    p2_match_content ['A', ':']
      [['f','i','r','s','t'], ['s','e','c','o','n','d'], ['t','h','i','r','d']]
      (['A', ':'] ++ ['z','z','z']) = none :=
  ⟨(C8_p2_pattern ['A', ':'] _ (by decide)).1 ['f','i','r','s','t'] (by decide),
   (C8_p2_pattern ['A', ':'] _ (by decide)).2 ['z','z','z'] (by decide)⟩

/-- C9: the player-1 fields are the original triplet components for every
slot index: the triplet is re-unpacked each iteration and the player-1
fields are written before any reassignment, so the permutation never leaks
into them. -/
theorem C9_player1_frame (sample : Grid × Grid × Grid) (targets : List Grid) (i : Nat) :
    (make_positional_instance sample targets i).player_1_target_grid = sample.1 ∧
    (make_positional_instance sample targets i).player_1_second_grid = sample.2.1 ∧
    (make_positional_instance sample targets i).player_1_third_grid = sample.2.2 := by
  by_cases h1 : i = 1
  · subst h1
    exact ⟨rfl, rfl, rfl⟩
  · by_cases h2 : i = 2
    · subst h2
      exact ⟨rfl, rfl, rfl⟩
    · by_cases h3 : i = 3
      · subst h3
        exact ⟨rfl, rfl, rfl⟩
      · simp [make_positional_instance, h1, h2, h3]

/-- C10: any pair returned by `select_distractors` has strictly positive
distance to the target in both components; an index at distance 0 (a grid
identical to the target, or the target itself) is never selected. -/
theorem C10_positive_distances (fuel t id1 id2 : Nat) (m : List (List Nat))
    (h : select_distractors fuel t m = some (id1, id2)) :
    1 ≤ (m.getD t []).getD id1 0 ∧ 1 ≤ (m.getD t []).getD id2 0 ∧
    ∀ k, (m.getD t []).getD k 0 = 0 → k ≠ id1 ∧ k ≠ id2 := by
  have hp := select_distractors_post fuel t id1 id2 m h
  simp only [SelPost] at hp
  obtain ⟨_, _, _, hp1, hp2, _⟩ := hp
  refine ⟨hp1, hp2, ?_⟩
  intro k hk
  constructor
  · intro hcon
    rw [hcon] at hk
    omega
  · intro hcon
    rw [hcon] at hk
    omega

/-- C10 witness: positive distances at the concrete scenario. -/
theorem C10_witness :
    select_distractors 10 0 (get_distances [['0','0'], ['0','1'], ['1','1']]) = some (1, 2) ∧
    1 ≤ ((get_distances [['0','0'], ['0','1'], ['1','1']]).getD 0 []).getD 1 0 :=
  ⟨by decide, (C10_positive_distances 10 0 1 2 _ (by decide)).1⟩
